import Mathlib

/-!
Verification of the contact-manager core of `hw7.py`: field validators
(`Phone`, `Birthday`), the `Record` phone operations, the `AddressBook`
directory, and the upcoming-birthday engine `get_upcoming_birthdays`.

Dates are modelled as proleptic-Gregorian triples, exactly as Python's
`datetime.date` does: `toOrdinal` is `date.toordinal` (day 1 = 0001-01-01),
`weekday` is `date.weekday` (Monday = 0 … Sunday = 6), and `replaceYear`
is `date.replace(year=...)`, which re-validates the fields and raises
`ValueError` on an invalid result (the `Except Unit` error).
Strings handled by the validators are modelled as `List Char`.
-/

deriving instance DecidableEq for Except

namespace HW7

/-- Gregorian leap-year test, as in Python's `calendar.isleap` /
`datetime._is_leap`. -/
def isLeap (y : Nat) : Bool :=
  y % 4 == 0 && (y % 100 != 0 || y % 400 == 0)

/-- Days in a month of a given year (`datetime._days_in_month`); 0 for an
out-of-range month, which never passes validation. -/
def daysInMonth (y m : Nat) : Nat :=
  match m with
  | 1 => 31
  | 2 => if isLeap y then 29 else 28
  | 3 => 31
  | 4 => 30
  | 5 => 31
  | 6 => 30
  | 7 => 31
  | 8 => 31
  | 9 => 30
  | 10 => 31
  | 11 => 30
  | 12 => 31
  | _ => 0

/-- Days in year `y` before the first of month `m`
(`datetime._days_before_month`). -/
def daysBeforeMonth (y : Nat) : Nat → Nat
  | 0 => 0
  | 1 => 0
  | m + 2 => daysBeforeMonth y (m + 1) + daysInMonth y (m + 1)

/-- Days before January 1st of year `y` (`datetime._days_before_year`):
`(y-1)*365 + (y-1)//4 - (y-1)//100 + (y-1)//400`. -/
def daysBeforeYear (y : Nat) : Nat :=
  (y - 1) * 365 + (y - 1) / 4 - (y - 1) / 100 + (y - 1) / 400

/-- A calendar date: Python's `datetime.date` value (time-of-day dropped,
as the code only ever uses `.date()` / midnight datetimes). -/
structure Date where
  year : Nat
  month : Nat
  day : Nat
deriving DecidableEq

/-- `date.toordinal()`: proleptic-Gregorian ordinal, 0001-01-01 is day 1. -/
def toOrdinal (d : Date) : Nat :=
  daysBeforeYear d.year + daysBeforeMonth d.year d.month + d.day

/-- `date.weekday()`: Monday = 0 … Sunday = 6. -/
def weekday (d : Date) : Nat :=
  (toOrdinal d + 6) % 7

/-- `date.__lt__`: lexicographic comparison of (year, month, day). -/
def dateLt (a b : Date) : Bool :=
  a.year < b.year ||
    (a.year == b.year &&
      (a.month < b.month || (a.month == b.month && a.day < b.day)))

/-- The field validation of the `date` constructor
(`datetime._check_date_fields`, `MINYEAR = 1`, `MAXYEAR = 9999`). -/
def validDate (d : Date) : Bool :=
  decide (1 ≤ d.year ∧ d.year ≤ 9999 ∧ 1 ≤ d.month ∧ d.month ≤ 12 ∧
    1 ≤ d.day ∧ d.day ≤ daysInMonth d.year d.month)

/-- Month and day in range and year positive (no `MAXYEAR` cap); the part
of validity that calendar arithmetic needs. -/
def ValidYMD (d : Date) : Prop :=
  1 ≤ d.year ∧ 1 ≤ d.month ∧ d.month ≤ 12 ∧ 1 ≤ d.day ∧
    d.day ≤ daysInMonth d.year d.month

instance (d : Date) : Decidable (ValidYMD d) := by
  unfold ValidYMD; infer_instance

/-- `date.replace(year=y)`: same month/day in year `y`, re-validated by the
`date` constructor; `ValueError` (here `Except.error ()`) if invalid —
e.g. Feb 29 re-based onto a non-leap year. -/
def replaceYear (d : Date) (y : Nat) : Except Unit Date :=
  if validDate ⟨y, d.month, d.day⟩ then .ok ⟨y, d.month, d.day⟩ else .error ()

/-- The successor day (month and year rollover). For valid dates this
agrees with Python's `date + timedelta(days=1)`. -/
def nextDay (d : Date) : Date :=
  if d.day < daysInMonth d.year d.month then ⟨d.year, d.month, d.day + 1⟩
  else if d.month < 12 then ⟨d.year, d.month + 1, 1⟩
  else ⟨d.year + 1, 1, 1⟩

/-- `date + timedelta(days=n)` for `n ≥ 0`, as iterated day successor. -/
def addDays (d : Date) (n : Nat) : Date :=
  Nat.iterate nextDay n d

/-- `(a - b).days` for dates, an integer (may be negative). -/
def daysUntil (a b : Date) : Int :=
  (toOrdinal a : Int) - (toOrdinal b : Int)

/-! ### Digit strings, parsing and formatting

Character classes follow the Unicode 14.0 character database, the one
CPython 3.11 uses: `ndRanges` lists the code-point ranges of category
Nd (the decimal digits that `re`'s `\d` matches in a `str` pattern and
`int()` parses), and `digitRanges` lists the larger set `str.isdigit`
accepts (Nd plus the Numeric_Type = Digit characters such as
superscripts and circled digits). Every Nd range packs its digits in
ascending runs of ten, so a digit's decimal value is its offset in the
range modulo 10. -/

/-- Code-point ranges of Unicode category Nd (decimal digits). -/
def ndRanges : List (Nat × Nat) :=
  [(48, 57), (1632, 1641), (1776, 1785), (1984, 1993), (2406, 2415),
   (2534, 2543), (2662, 2671), (2790, 2799), (2918, 2927), (3046, 3055),
   (3174, 3183), (3302, 3311), (3430, 3439), (3558, 3567), (3664, 3673),
   (3792, 3801), (3872, 3881), (4160, 4169), (4240, 4249), (6112, 6121),
   (6160, 6169), (6470, 6479), (6608, 6617), (6784, 6793), (6800, 6809),
   (6992, 7001), (7088, 7097), (7232, 7241), (7248, 7257), (42528, 42537),
   (43216, 43225), (43264, 43273), (43472, 43481), (43504, 43513),
   (43600, 43609), (44016, 44025), (65296, 65305), (66720, 66729),
   (68912, 68921), (69734, 69743), (69872, 69881), (69942, 69951),
   (70096, 70105), (70384, 70393), (70736, 70745), (70864, 70873),
   (71248, 71257), (71360, 71369), (71472, 71481), (71904, 71913),
   (72016, 72025), (72784, 72793), (73040, 73049), (73120, 73129),
   (92768, 92777), (92864, 92873), (93008, 93017), (120782, 120831),
   (123200, 123209), (123632, 123641), (125264, 125273), (130032, 130041)]

/-- Code-point ranges of the characters `str.isdigit` accepts. -/
def digitRanges : List (Nat × Nat) :=
  [(48, 57), (178, 179), (185, 185), (1632, 1641), (1776, 1785),
   (1984, 1993), (2406, 2415), (2534, 2543), (2662, 2671), (2790, 2799),
   (2918, 2927), (3046, 3055), (3174, 3183), (3302, 3311), (3430, 3439),
   (3558, 3567), (3664, 3673), (3792, 3801), (3872, 3881), (4160, 4169),
   (4240, 4249), (4969, 4977), (6112, 6121), (6160, 6169), (6470, 6479),
   (6608, 6618), (6784, 6793), (6800, 6809), (6992, 7001), (7088, 7097),
   (7232, 7241), (7248, 7257), (8304, 8304), (8308, 8313), (8320, 8329),
   (9312, 9320), (9332, 9340), (9352, 9360), (9450, 9450), (9461, 9469),
   (9471, 9471), (10102, 10110), (10112, 10120), (10122, 10130),
   (42528, 42537), (43216, 43225), (43264, 43273), (43472, 43481),
   (43504, 43513), (43600, 43609), (44016, 44025), (65296, 65305),
   (66720, 66729), (68160, 68163), (68912, 68921), (69216, 69224),
   (69714, 69722), (69734, 69743), (69872, 69881), (69942, 69951),
   (70096, 70105), (70384, 70393), (70736, 70745), (70864, 70873),
   (71248, 71257), (71360, 71369), (71472, 71481), (71904, 71913),
   (72016, 72025), (72784, 72793), (73040, 73049), (73120, 73129),
   (92768, 92777), (92864, 92873), (93008, 93017), (120782, 120831),
   (123200, 123209), (123632, 123641), (125264, 125273), (127232, 127242),
   (130032, 130041)]

/-- Unicode decimal digit: what `\d` matches in a `str`-pattern regex. -/
def isDecDigit (c : Char) : Bool :=
  ndRanges.any (fun r => decide (r.1 ≤ c.toNat ∧ c.toNat ≤ r.2))

/-- The decimal value of a Unicode decimal digit (offset in its Nd
range, modulo 10 since some blocks pack several 0-9 runs contiguously);
0 for a non-digit, which models `int()` stripping the leading space the
`%d` regex can capture. -/
def decValue (c : Char) : Nat :=
  match ndRanges.find? (fun r => decide (r.1 ≤ c.toNat ∧ c.toNat ≤ r.2)) with
  | some r => (c.toNat - r.1) % 10
  | none => 0

/-- `str.isdigit` on one character. -/
def py_isdigit (c : Char) : Bool :=
  digitRanges.any (fun r => decide (r.1 ≤ c.toNat ∧ c.toNat ≤ r.2))

/-- Membership of a character's code point in an ASCII range, as a regex
character class like `[1-9]` tests it. -/
def inRange (lo hi : Nat) (c : Char) : Bool :=
  decide (lo ≤ c.toNat ∧ c.toNat ≤ hi)

/-- Numeric value of an ASCII decimal digit character. -/
def charVal (c : Char) : Nat := c.toNat - 48

/-- `int(s)` on a field the `strptime` regexes match: each Unicode
decimal digit contributes its decimal value. -/
def digitsVal (s : List Char) : Nat :=
  s.foldl (fun acc c => acc * 10 + decValue c) 0

/-- `str.isdigit`: nonempty and every character a Unicode digit. -/
def str_isdigit (s : List Char) : Bool :=
  !s.isEmpty && s.all py_isdigit

/-- Prepend a character to the first piece of a split. -/
def consHead (c : Char) : List (List Char) → List (List Char)
  | [] => [[c]]
  | t :: ts => (c :: t) :: ts

/-- Split a character list at every `'.'` (like `str.split('.')`): the
pieces between dots, in order, kept even when empty. -/
def splitDots : List Char → List (List Char)
  | [] => [[]]
  | c :: rest => if c = '.' then [] :: splitDots rest else consHead c (splitDots rest)

/-- The language of `strptime`'s `%d` directive, CPython 3.11's regex
`3[0-1]|[1-2]\d|0[1-9]|[1-9]| [1-9]` (`_strptime.TimeRE`): the literal
digits and the bracketed classes are ASCII code points, `\d` is any
Unicode decimal digit, and the last alternative is a space followed by
an ASCII digit 1-9; 49-57 are the code points of ASCII '1'-'9'. -/
def dayFieldOk (s : List Char) : Bool :=
  match s with
  | [c] => inRange 49 57 c
  | [c1, c2] =>
    (c1 == '3' && (c2 == '0' || c2 == '1')) ||
    ((c1 == '1' || c1 == '2') && isDecDigit c2) ||
    (c1 == '0' && inRange 49 57 c2) ||
    (c1 == ' ' && inRange 49 57 c2)
  | _ => false

/-- The language of `strptime`'s `%m` directive, the regex
`1[0-2]|0[1-9]|[1-9]`: all classes are ASCII (48-50 is '0'-'2',
49-57 is '1'-'9'). -/
def monthFieldOk (s : List Char) : Bool :=
  match s with
  | [c] => inRange 49 57 c
  | [c1, c2] =>
    (c1 == '1' && inRange 48 50 c2) ||
    (c1 == '0' && inRange 49 57 c2)
  | _ => false

/-- The language of `strptime`'s `%Y` directive, the regex `\d\d\d\d`:
exactly four Unicode decimal digits. -/
def yearFieldOk (s : List Char) : Bool :=
  s.length == 4 && s.all isDecDigit

/-- `datetime.strptime(s, '%d.%m.%Y')` followed by `.date()`, as in
`Birthday.__init__`: three dot-separated fields matching the `%d`, `%m`
and `%Y` regexes, then the `date` constructor's field validation; any
failure is the `ValueError` with the message the code raises. -/
def parseBirthday (s : List Char) : Except String Date :=
  match splitDots s with
  | [ds, ms, ys] =>
    if dayFieldOk ds && monthFieldOk ms && yearFieldOk ys then
      if validDate ⟨digitsVal ys, digitsVal ms, digitsVal ds⟩ then
        .ok ⟨digitsVal ys, digitsVal ms, digitsVal ds⟩
      else .error "Invalid date format. Use DD.MM.YYYY"
    else .error "Invalid date format. Use DD.MM.YYYY"
  | _ => .error "Invalid date format. Use DD.MM.YYYY"

/-- Two-digit zero-padded decimal rendering (`strftime` `%d` / `%m`). -/
def pad2 (n : Nat) : List Char :=
  [Nat.digitChar (n / 10 % 10), Nat.digitChar (n % 10)]

/-- Unpadded decimal rendering, as glibc `strftime` emits `%Y` (years
below 1000 are NOT zero-padded: year 500 prints as "500"). Dates in
this development never exceed year 10000 (`MAXYEAR` 9999 plus the at
most two-day weekend shift), so five digit positions suffice. -/
def natChars (n : Nat) : List Char :=
  if n < 10 then [Nat.digitChar n]
  else if n < 100 then [Nat.digitChar (n / 10), Nat.digitChar (n % 10)]
  else if n < 1000 then
    [Nat.digitChar (n / 100), Nat.digitChar (n / 10 % 10), Nat.digitChar (n % 10)]
  else if n < 10000 then
    [Nat.digitChar (n / 1000), Nat.digitChar (n / 100 % 10),
      Nat.digitChar (n / 10 % 10), Nat.digitChar (n % 10)]
  else
    [Nat.digitChar (n / 10000 % 10), Nat.digitChar (n / 1000 % 10),
      Nat.digitChar (n / 100 % 10), Nat.digitChar (n / 10 % 10),
      Nat.digitChar (n % 10)]

/-- `date.strftime('%d.%m.%Y')` on glibc: day and month zero-padded to
two digits, the year unpadded. -/
def formatDate (d : Date) : List Char :=
  pad2 d.day ++ '.' :: (pad2 d.month ++ '.' :: natChars d.year)

/-! ### Fields, records and the address book -/

/-- A validated phone field (`Phone`); `value` is the stored string. -/
structure Phone where
  value : List Char
deriving DecidableEq

/-- `Phone.__init__`: raises `ValueError("Phone number must contain 10
digits.")` unless the string is all digits of length exactly 10. -/
def Phone.mk? (s : List Char) : Except String Phone :=
  if !(str_isdigit s) || s.length != 10 then
    .error "Phone number must contain 10 digits."
  else .ok ⟨s⟩

/-- A contact record: one name (the `Name` field's string), an ordered
list of phones, and an optional birthday (the parsed date). -/
structure Record where
  name : List Char
  phones : List Phone
  birthday : Option Date
deriving DecidableEq

/-- `Record.__init__`. -/
def Record.new (name : List Char) : Record := ⟨name, [], none⟩

/-- `Record.add_phone` (the `isinstance` guard holds by typing). -/
def Record.add_phone (r : Record) (p : Phone) : Record :=
  { r with phones := r.phones ++ [p] }

/-- `Record.add_birthday` (replaces any existing birthday). -/
def Record.add_birthday (r : Record) (b : Date) : Record :=
  { r with birthday := some b }

/-- `Record.remove_phone`: drop every phone whose string equals `s`. -/
def Record.remove_phone (r : Record) (s : List Char) : Record :=
  { r with phones := r.phones.filter (fun p => p.value != s) }

/-- `Record.edit_phone`: `remove_phone old` then `add_phone new`. -/
def Record.edit_phone (r : Record) (old : List Char) (p : Phone) : Record :=
  (r.remove_phone old).add_phone p

/-- `Record.find_phone`: first phone whose string equals `s`, else `None`. -/
def Record.find_phone (r : Record) (s : List Char) : Option Phone :=
  r.phones.find? (fun p => p.value == s)

/-- The `AddressBook`'s `UserDict` data: association list in insertion
order with unique keys, as a Python `dict`. -/
structure AddressBook where
  data : List (List Char × Record)
deriving DecidableEq

/-- `dict` assignment `data[k] = v`: update in place when the key is
present (keeping its position), else append. -/
def assocSet : List (List Char × Record) → List Char → Record →
    List (List Char × Record)
  | [], k, v => [(k, v)]
  | (k0, v0) :: rest, k, v =>
    if k0 == k then (k0, v) :: rest else (k0, v0) :: assocSet rest k v

/-- `AddressBook.add_record`: `self.data[record.name.value] = record`. -/
def AddressBook.add_record (b : AddressBook) (r : Record) : AddressBook :=
  ⟨assocSet b.data r.name r⟩

/-- `AddressBook.find`: `self.data.get(name)`, never raising. -/
def AddressBook.find (b : AddressBook) (n : List Char) : Option Record :=
  (b.data.find? (fun kv => kv.1 == n)).map Prod.snd

/-- `AddressBook.delete`: remove the entry for `n` when present (as keys
are unique, removing every matching entry is the same operation). -/
def AddressBook.delete (b : AddressBook) (n : List Char) : AddressBook :=
  ⟨b.data.filter (fun kv => kv.1 != n)⟩

/-- `self.data.values()` in iteration (= insertion) order. -/
def AddressBook.values (b : AddressBook) : List Record :=
  b.data.map Prod.snd

/-! ### The upcoming-birthday engine -/

/-- One element of `get_upcoming_birthdays`'s output: the dict
`{'name': ..., 'congradulation_date': ...}` (spelling as in the code). -/
structure Entry where
  name : List Char
  congradulation_date : List Char
deriving DecidableEq

/-- The `birthday_this_year` computation: re-base the stored birthday onto
`today`'s year with `replace(year=today.year)`, and when that date is
strictly before `today`, onto the next year instead. Either `replace`
may raise (Feb 29 onto a non-leap year). -/
def rebasedBirthday (bd today : Date) : Except Unit Date :=
  match replaceYear bd today.year with
  | .error e => .error e
  | .ok ty0 => if dateLt ty0 today then replaceYear ty0 (today.year + 1) else .ok ty0

/-- The weekend-rollover step: a Saturday or Sunday date moves to
`d + timedelta(days=7 - d.weekday())`, the following Monday. -/
def congradulationDate (d : Date) : Date :=
  if weekday d = 5 ∨ weekday d = 6 then addDays d (7 - weekday d) else d

/-- The body of `get_upcoming_birthdays`'s loop for one record: `none`
when the record contributes no entry, `some` the entry it appends, and
`error` when the date re-basing raises. -/
def processRecord (today : Date) (r : Record) : Except Unit (Option Entry) :=
  match r.birthday with
  | none => .ok none
  | some bd =>
    match rebasedBirthday bd today with
    | .error e => .error e
    | .ok ty =>
      if 0 ≤ daysUntil ty today ∧ daysUntil ty today ≤ 7 then
        .ok (some ⟨r.name, formatDate (congradulationDate ty)⟩)
      else .ok none

/-- The loop of `get_upcoming_birthdays` over a list of records,
appending entries in order; an exception aborts the whole call. -/
def collectUpcoming (today : Date) : List Record → Except Unit (List Entry)
  | [] => .ok []
  | r :: rs =>
    match processRecord today r with
    | .error e => .error e
    | .ok none => collectUpcoming today rs
    | .ok (some e) =>
      match collectUpcoming today rs with
      | .error e2 => .error e2
      | .ok tail => .ok (e :: tail)

/-- `AddressBook.get_upcoming_birthdays`, with `datetime.today().date()`
made an explicit `today` parameter. -/
def AddressBook.get_upcoming_birthdays (b : AddressBook) (today : Date) :
    Except Unit (List Entry) :=
  collectUpcoming today b.values

/-- Whether one record passes the engine's inclusion test: it has a
birthday, the re-basing succeeds, and the day difference lies in 0..7. -/
def shouldInclude (today : Date) (r : Record) : Bool :=
  match r.birthday with
  | none => false
  | some bd =>
    match rebasedBirthday bd today with
    | .error _ => false
    | .ok ty => decide (0 ≤ daysUntil ty today ∧ daysUntil ty today ≤ 7)

/-! ### Spec-side definitions (refinement comparisons)

`specDDMMYYYY` renders the spec sentence, "a string in `DD.MM.YYYY`
format (two-digit day, two-digit month, four-digit year) denoting a real
calendar date", to compare against what `parseBirthday` actually accepts.
`lenientFormat` is the corrected characterization. -/

/-- The spec's `DD.MM.YYYY` language: exactly `d₁d₂.m₁m₂.y₁y₂y₃y₄` with
every position a decimal digit and the denoted triple a real calendar
date. -/
def specDDMMYYYY (s : List Char) : Bool :=
  match s with
  | [d1, d2, c1, m1, m2, c2, y1, y2, y3, y4] =>
    c1 == '.' && c2 == '.' &&
      [d1, d2, m1, m2, y1, y2, y3, y4].all Char.isDigit &&
      validDate ⟨digitsVal [y1, y2, y3, y4], digitsVal [m1, m2], digitsVal [d1, d2]⟩
  | _ => false

/-- What `strptime('%d.%m.%Y')` really accepts: three dot-separated
fields in the `%d`, `%m`, `%Y` regex languages whose triple is a real
calendar date. -/
def lenientFormat (s : List Char) : Prop :=
  ∃ ds ms ys, s = ds ++ '.' :: (ms ++ '.' :: ys) ∧
    dayFieldOk ds = true ∧ monthFieldOk ms = true ∧ yearFieldOk ys = true ∧
    validDate ⟨digitsVal ys, digitsVal ms, digitsVal ds⟩ = true

/-- Inverse of `splitDots`: interpose `'.'` between the pieces. -/
def joinDots : List (List Char) → List Char
  | [] => []
  | [t] => t
  | t :: ts => t ++ '.' :: joinDots ts

/-! ### Concrete sample data (used by the witness theorems) -/

/-- A record with birthday June 12 2024 (a Wednesday). -/
def aliceRec : Record := ⟨"Alice".toList, [], some ⟨2024, 6, 12⟩⟩

/-- A record with no birthday. -/
def bobRec : Record := ⟨"Bob".toList, [], none⟩

/-- A record with birthday June 15 2024 (a Saturday). -/
def carolRec : Record := ⟨"Carol".toList, [], some ⟨2024, 6, 15⟩⟩

/-- A record with birthday Feb 29 2024 (a leap day). -/
def leapRec : Record := ⟨"Dana".toList, [], some ⟨2024, 2, 29⟩⟩

/-- Sample directory for the window witness. -/
def book1 : AddressBook := ⟨[("Alice".toList, aliceRec), ("Bob".toList, bobRec)]⟩

/-- Sample directory for the weekend-rollover witness. -/
def book2 : AddressBook := ⟨[("Carol".toList, carolRec)]⟩

/-- Sample directory containing the leap-day record. -/
def book3 : AddressBook := ⟨[("Dana".toList, leapRec)]⟩

/-! ### Calendar lemmas -/

lemma daysBeforeMonth_succ (y m : Nat) (hm : 1 ≤ m) :
    daysBeforeMonth y (m + 1) = daysBeforeMonth y m + daysInMonth y m := by
  obtain ⟨k, rfl⟩ : ∃ k, m = k + 1 := ⟨m - 1, by omega⟩
  rfl

lemma daysBeforeMonth_12_add (y : Nat) :
    daysBeforeMonth y 12 + 31 = if isLeap y then 366 else 365 := by
  cases h : isLeap y <;> simp [daysBeforeMonth, daysInMonth, h]

lemma daysBeforeYear_succ (y : Nat) (hy : 1 ≤ y) :
    daysBeforeYear (y + 1) = daysBeforeYear y + (if isLeap y then 366 else 365) := by
  obtain ⟨k, rfl⟩ : ∃ k, y = k + 1 := ⟨y - 1, by omega⟩
  simp only [daysBeforeYear, Nat.add_sub_cancel, isLeap, Bool.and_eq_true,
    Bool.or_eq_true, beq_iff_eq, bne_iff_ne, ne_eq]
  rw [Nat.succ_div, Nat.succ_div, Nat.succ_div]
  split_ifs <;> omega

lemma daysInMonth_le_31 (y m : Nat) : daysInMonth y m ≤ 31 := by
  unfold daysInMonth
  split <;> first | omega | split <;> omega

lemma one_le_daysInMonth (y m : Nat) (h1 : 1 ≤ m) (h2 : m ≤ 12) :
    1 ≤ daysInMonth y m := by
  interval_cases m <;> simp only [daysInMonth] <;>
    first | omega | split <;> omega

lemma validYMD_mk (y m day : Nat)
    (h : 1 ≤ y ∧ 1 ≤ m ∧ m ≤ 12 ∧ 1 ≤ day ∧ day ≤ daysInMonth y m) :
    ValidYMD ⟨y, m, day⟩ := h

lemma toOrdinal_mk (y m day : Nat) :
    toOrdinal ⟨y, m, day⟩ = daysBeforeYear y + daysBeforeMonth y m + day := rfl

lemma validYMD_nextDay (d : Date) (h : ValidYMD d) : ValidYMD (nextDay d) := by
  obtain ⟨hy, hm1, hm12, hd1, hdm⟩ := h
  unfold nextDay
  split_ifs with h1 h2
  · exact validYMD_mk _ _ _ ⟨hy, hm1, hm12, by omega, by omega⟩
  · exact validYMD_mk _ _ _ ⟨hy, by omega, by omega, by omega,
      one_le_daysInMonth d.year (d.month + 1) (by omega) (by omega)⟩
  · exact validYMD_mk _ _ _ ⟨by omega, by omega, by omega, by omega,
      one_le_daysInMonth (d.year + 1) 1 (by omega) (by omega)⟩

lemma toOrdinal_nextDay (d : Date) (h : ValidYMD d) :
    toOrdinal (nextDay d) = toOrdinal d + 1 := by
  obtain ⟨hy, hm1, hm12, hd1, hdm⟩ := h
  unfold nextDay
  split_ifs with h1 h2
  · rw [toOrdinal_mk]
    simp only [toOrdinal]
    omega
  · have hstep := daysBeforeMonth_succ d.year d.month hm1
    rw [toOrdinal_mk]
    simp only [toOrdinal]
    omega
  · have hm : d.month = 12 := by omega
    have hdm12 : daysInMonth d.year 12 = 31 := rfl
    have hday : d.day = 31 := by rw [hm] at hdm h1; omega
    have h12 := daysBeforeMonth_12_add d.year
    have hYs := daysBeforeYear_succ d.year hy
    have hb1 : daysBeforeMonth (d.year + 1) 1 = 0 := rfl
    rw [toOrdinal_mk, hb1]
    simp only [toOrdinal, hm, hday]
    cases hL : isLeap d.year
    · simp only [hL, Bool.false_eq_true, if_false] at h12 hYs
      omega
    · simp only [hL, if_true] at h12 hYs
      omega

lemma toOrdinal_addDays (n : Nat) : ∀ (d : Date), ValidYMD d →
    toOrdinal (addDays d n) = toOrdinal d + n := by
  induction n with
  | zero => intro d _; rfl
  | succ n ih =>
    intro d h
    have : addDays d (n + 1) = addDays (nextDay d) n := by
      simp [addDays, Function.iterate_succ_apply]
    rw [this, ih (nextDay d) (validYMD_nextDay d h), toOrdinal_nextDay d h]
    omega

lemma weekday_lt_7 (d : Date) : weekday d < 7 := by
  unfold weekday; omega

lemma weekday_congradulationDate (d : Date) (h : ValidYMD d) :
    weekday (congradulationDate d) ≤ 4 := by
  unfold congradulationDate
  split_ifs with hw
  · have hord := toOrdinal_addDays (7 - weekday d) d h
    simp only [weekday] at hw hord ⊢
    rcases hw with hw | hw <;> omega
  · push_neg at hw
    simp only [weekday] at hw ⊢
    omega

lemma validYMD_of_validDate (d : Date) (h : validDate d = true) : ValidYMD d := by
  simp only [validDate, decide_eq_true_eq] at h
  exact ⟨h.1, h.2.2.1, h.2.2.2.1, h.2.2.2.2.1, h.2.2.2.2.2⟩

lemma replaceYear_valid (d : Date) (y : Nat) (ty : Date)
    (h : replaceYear d y = .ok ty) : validDate ty = true := by
  unfold replaceYear at h
  by_cases hv : validDate ⟨y, d.month, d.day⟩ = true
  · rw [if_pos hv] at h
    cases h
    exact hv
  · rw [if_neg hv] at h
    cases h

lemma rebasedBirthday_valid (bd today ty : Date)
    (h : rebasedBirthday bd today = .ok ty) : validDate ty = true := by
  unfold rebasedBirthday at h
  cases h0 : replaceYear bd today.year with
  | error e =>
    rw [h0] at h
    replace h : (Except.error e : Except Unit Date) = Except.ok ty := h
    cases h
  | ok ty0 =>
    rw [h0] at h
    replace h : (if dateLt ty0 today = true then replaceYear ty0 (today.year + 1)
        else Except.ok ty0) = Except.ok ty := h
    by_cases hlt : dateLt ty0 today = true
    · rw [if_pos hlt] at h
      exact replaceYear_valid _ _ _ h
    · rw [if_neg hlt] at h
      cases h
      exact replaceYear_valid _ _ _ h0

/-! ### Engine lemmas -/

lemma processRecord_ok_some (today : Date) (r : Record) (e : Entry)
    (h : processRecord today r = .ok (some e)) :
    ∃ bd ty, r.birthday = some bd ∧ rebasedBirthday bd today = .ok ty ∧
      0 ≤ daysUntil ty today ∧ daysUntil ty today ≤ 7 ∧
      e = ⟨r.name, formatDate (congradulationDate ty)⟩ := by
  unfold processRecord at h
  cases hb : r.birthday with
  | none => rw [hb] at h; simp at h
  | some bd =>
    rw [hb] at h
    dsimp only at h
    cases hr : rebasedBirthday bd today with
    | error err => rw [hr] at h; simp at h
    | ok ty =>
      rw [hr] at h
      dsimp only at h
      split_ifs at h with hw
      · cases h
        exact ⟨bd, ty, rfl, hr, hw.1, hw.2, rfl⟩
      · simp at h

lemma processRecord_ok_none (today : Date) (r : Record)
    (h : processRecord today r = .ok none) : shouldInclude today r = false := by
  unfold processRecord at h
  unfold shouldInclude
  cases hb : r.birthday with
  | none => rfl
  | some bd =>
    rw [hb] at h
    dsimp only at h ⊢
    cases hr : rebasedBirthday bd today with
    | error err => rfl
    | ok ty =>
      rw [hr] at h
      dsimp only at h ⊢
      split_ifs at h with hw
      · simp at h
      · exact decide_eq_false hw

lemma processRecord_some_of_include (today : Date) (r : Record)
    (h : shouldInclude today r = true) :
    ∃ e, processRecord today r = .ok (some e) ∧ e.name = r.name := by
  unfold shouldInclude at h
  unfold processRecord
  cases hb : r.birthday with
  | none => rw [hb] at h; simp at h
  | some bd =>
    rw [hb] at h
    dsimp only at h ⊢
    cases hr : rebasedBirthday bd today with
    | error err => rw [hr] at h; simp at h
    | ok ty =>
      rw [hr] at h
      dsimp only at h ⊢
      simp only [decide_eq_true_eq] at h
      exact ⟨⟨r.name, formatDate (congradulationDate ty)⟩, by rw [if_pos h], rfl⟩

lemma shouldInclude_iff (today : Date) (r : Record) :
    shouldInclude today r = true ↔
      ∃ bd ty, r.birthday = some bd ∧ rebasedBirthday bd today = .ok ty ∧
        0 ≤ daysUntil ty today ∧ daysUntil ty today ≤ 7 := by
  unfold shouldInclude
  cases hb : r.birthday with
  | none => simp
  | some bd =>
    dsimp only
    cases hr : rebasedBirthday bd today with
    | error err => simp [hr]
    | ok ty => simp [hr]

lemma collectUpcoming_shape (today : Date) :
    ∀ (rs : List Record) (out : List Entry),
      collectUpcoming today rs = .ok out → ∀ e ∈ out,
        ∃ r, r ∈ rs ∧ ∃ bd ty,
          r.birthday = some bd ∧ rebasedBirthday bd today = .ok ty ∧
          0 ≤ daysUntil ty today ∧ daysUntil ty today ≤ 7 ∧
          e = ⟨r.name, formatDate (congradulationDate ty)⟩ := by
  intro rs
  induction rs with
  | nil =>
    intro out h e he
    cases h
    simp at he
  | cons r rs ih =>
    intro out h e he
    unfold collectUpcoming at h
    cases hp : processRecord today r with
    | error err => rw [hp] at h; simp at h
    | ok oe =>
      rw [hp] at h
      cases oe with
      | none =>
        dsimp only at h
        obtain ⟨r', hr', rest⟩ := ih out h e he
        exact ⟨r', List.mem_cons_of_mem _ hr', rest⟩
      | some e0 =>
        dsimp only at h
        cases hc : collectUpcoming today rs with
        | error err2 => rw [hc] at h; simp at h
        | ok tail =>
          rw [hc] at h
          dsimp only at h
          cases h
          rcases List.mem_cons.mp he with he0 | het
          · subst he0
            obtain ⟨bd, ty, h1, h2, h3, h4, h5⟩ := processRecord_ok_some today r e hp
            exact ⟨r, List.mem_cons_self r rs, bd, ty, h1, h2, h3, h4, h5⟩
          · obtain ⟨r', hr', rest⟩ := ih tail hc e het
            exact ⟨r', List.mem_cons_of_mem _ hr', rest⟩

lemma collectUpcoming_mem_names (today : Date) (rs : List Record)
    (out : List Entry) (h : collectUpcoming today rs = .ok out) :
    ∀ e ∈ out, e.name ∈ rs.map Record.name := by
  intro e he
  obtain ⟨r, hr, _, _, _, _, _, _, he'⟩ := collectUpcoming_shape today rs out h e he
  subst he'
  exact List.mem_map_of_mem Record.name hr

lemma collectUpcoming_mem_iff (today : Date) :
    ∀ (rs : List Record) (out : List Entry),
      collectUpcoming today rs = .ok out →
      (rs.map Record.name).Nodup →
      ∀ r ∈ rs, ((∃ e ∈ out, e.name = r.name) ↔ shouldInclude today r = true) := by
  intro rs
  induction rs with
  | nil => intro out h hnd r hr; simp at hr
  | cons r0 rs ih =>
    intro out h hnd r hr
    have hnd0 : r0.name ∉ rs.map Record.name := (List.nodup_cons.mp hnd).1
    have hndt : (rs.map Record.name).Nodup := (List.nodup_cons.mp hnd).2
    unfold collectUpcoming at h
    cases hp : processRecord today r0 with
    | error err => rw [hp] at h; simp at h
    | ok oe =>
      rw [hp] at h
      cases oe with
      | none =>
        dsimp only at h
        rcases List.mem_cons.mp hr with hr0 | hrt
        · subst hr0
          constructor
          · rintro ⟨e, he, hen⟩
            exact absurd (hen ▸ collectUpcoming_mem_names today rs out h e he) hnd0
          · intro hinc
            rw [processRecord_ok_none today r hp] at hinc
            cases hinc
        · exact ih out h hndt r hrt
      | some e0 =>
        dsimp only at h
        cases hc : collectUpcoming today rs with
        | error err2 => rw [hc] at h; simp at h
        | ok tail =>
          rw [hc] at h
          dsimp only at h
          cases h
          obtain ⟨bd, ty, _, _, _, _, he0⟩ := processRecord_ok_some today r0 e0 hp
          have he0n : e0.name = r0.name := by rw [he0]
          rcases List.mem_cons.mp hr with hr0 | hrt
          · subst hr0
            constructor
            · intro _
              rw [shouldInclude_iff]
              exact ⟨bd, ty, by assumption, by assumption, by assumption, by assumption⟩
            · intro _
              exact ⟨e0, List.mem_cons_self e0 tail, he0n⟩
          · have hne : r.name ≠ r0.name := by
              intro hEq
              exact hnd0 (hEq ▸ List.mem_map_of_mem Record.name hrt)
            constructor
            · rintro ⟨e, he, hen⟩
              rcases List.mem_cons.mp he with rfl | het
              · exact absurd (hen.symm.trans he0n) hne
              · exact (ih tail hc hndt r hrt).mp ⟨e, het, hen⟩
            · intro hinc
              obtain ⟨e, he, hen⟩ := (ih tail hc hndt r hrt).mpr hinc
              exact ⟨e, List.mem_cons_of_mem _ he, hen⟩

/-! ### Character and digit-string lemmas -/

lemma isDigit_toNat (c : Char) (h : c.isDigit = true) :
    48 ≤ c.toNat ∧ c.toNat ≤ 57 := by
  simp only [Char.isDigit, Bool.and_eq_true, decide_eq_true_eq, ge_iff_le] at h
  obtain ⟨h1, h2⟩ := h
  exact ⟨UInt32.le_toNat_of_le (by norm_num) h1, UInt32.toNat_le_of_le (by norm_num) h2⟩

lemma charVal_lt_10 (c : Char) (h : c.isDigit = true) : charVal c < 10 := by
  obtain ⟨h1, h2⟩ := isDigit_toNat c h
  unfold charVal
  omega

lemma digitChar_charVal (c : Char) (h : c.isDigit = true) :
    Nat.digitChar (charVal c) = c := by
  obtain ⟨h1, h2⟩ := isDigit_toNat c h
  have hc : c = Char.ofNat c.toNat := (Char.ofNat_toNat c).symm
  unfold charVal
  rw [hc]
  set n := c.toNat with hn
  interval_cases n <;> rfl

lemma digit_ne_dot (c : Char) (h : c.isDigit = true) : ¬ c = '.' :=
  fun he => absurd (he ▸ h) (by decide)

lemma char_toNat_eq_char (c : Char) (d : Char) (h : c.toNat = d.toNat) : c = d := by
  have h1 : Char.ofNat c.toNat = Char.ofNat d.toNat := by rw [h]
  rwa [Char.ofNat_toNat, Char.ofNat_toNat] at h1

lemma decValue_ascii (c : Char) (h : c.isDigit = true) : decValue c = charVal c := by
  obtain ⟨h1, h2⟩ := isDigit_toNat c h
  unfold decValue ndRanges
  rw [List.find?_cons_of_pos _ (by simp only [decide_eq_true_eq]; omega)]
  dsimp only
  unfold charVal
  omega

lemma isDecDigit_of_ascii (c : Char) (h : c.isDigit = true) : isDecDigit c = true := by
  obtain ⟨h1, h2⟩ := isDigit_toNat c h
  unfold isDecDigit
  refine List.any_eq_true.mpr ⟨(48, 57), ?_, ?_⟩
  · unfold ndRanges
    exact List.mem_cons_self _ _
  · simp only [decide_eq_true_eq]
    omega

lemma isDecDigit_ne_dot (c : Char) (h : isDecDigit c = true) : ¬ c = '.' :=
  fun he => absurd (he ▸ h) (by decide)

lemma inRange_ne_dot (lo hi : Nat) (c : Char) (h : inRange lo hi c = true)
    (hlo : 46 < lo) : ¬ c = '.' := by
  intro he
  subst he
  simp only [inRange, decide_eq_true_eq] at h
  have hdot : ('.' : Char).toNat = 46 := rfl
  omega

lemma digitsVal_two (c1 c2 : Char) :
    digitsVal [c1, c2] = 10 * decValue c1 + decValue c2 := by
  simp only [digitsVal, List.foldl_cons, List.foldl_nil]
  ring

lemma digitsVal_four (c1 c2 c3 c4 : Char) :
    digitsVal [c1, c2, c3, c4] =
      1000 * decValue c1 + 100 * decValue c2 + 10 * decValue c3 + decValue c4 := by
  simp only [digitsVal, List.foldl_cons, List.foldl_nil]
  ring

lemma pad2_digitsVal (c1 c2 : Char) (h1 : c1.isDigit = true) (h2 : c2.isDigit = true) :
    pad2 (digitsVal [c1, c2]) = [c1, c2] := by
  have v1 := charVal_lt_10 c1 h1
  have v2 := charVal_lt_10 c2 h2
  rw [digitsVal_two, decValue_ascii c1 h1, decValue_ascii c2 h2]
  unfold pad2
  have e1 : (10 * charVal c1 + charVal c2) / 10 % 10 = charVal c1 := by omega
  have e2 : (10 * charVal c1 + charVal c2) % 10 = charVal c2 := by omega
  rw [e1, e2, digitChar_charVal c1 h1, digitChar_charVal c2 h2]

lemma natChars_four (n : Nat) (h1 : 1000 ≤ n) (h2 : n ≤ 9999) :
    natChars n = [Nat.digitChar (n / 1000), Nat.digitChar (n / 100 % 10),
      Nat.digitChar (n / 10 % 10), Nat.digitChar (n % 10)] := by
  unfold natChars
  rw [if_neg (by omega), if_neg (by omega), if_neg (by omega), if_pos (by omega)]

lemma natChars_digitsVal_four (c1 c2 c3 c4 : Char) (h1 : c1.isDigit = true)
    (h2 : c2.isDigit = true) (h3 : c3.isDigit = true) (h4 : c4.isDigit = true)
    (hge : 1000 ≤ digitsVal [c1, c2, c3, c4]) :
    natChars (digitsVal [c1, c2, c3, c4]) = [c1, c2, c3, c4] := by
  have v1 := charVal_lt_10 c1 h1
  have v2 := charVal_lt_10 c2 h2
  have v3 := charVal_lt_10 c3 h3
  have v4 := charVal_lt_10 c4 h4
  rw [digitsVal_four, decValue_ascii c1 h1, decValue_ascii c2 h2,
    decValue_ascii c3 h3, decValue_ascii c4 h4] at hge ⊢
  rw [natChars_four _ (by omega) (by omega)]
  have e1 : (1000 * charVal c1 + 100 * charVal c2 + 10 * charVal c3 + charVal c4)
      / 1000 = charVal c1 := by omega
  have e2 : (1000 * charVal c1 + 100 * charVal c2 + 10 * charVal c3 + charVal c4)
      / 100 % 10 = charVal c2 := by omega
  have e3 : (1000 * charVal c1 + 100 * charVal c2 + 10 * charVal c3 + charVal c4)
      / 10 % 10 = charVal c3 := by omega
  have e4 : (1000 * charVal c1 + 100 * charVal c2 + 10 * charVal c3 + charVal c4)
      % 10 = charVal c4 := by omega
  rw [e1, e2, e3, e4, digitChar_charVal c1 h1, digitChar_charVal c2 h2,
    digitChar_charVal c3 h3, digitChar_charVal c4 h4]

/-! ### splitDots lemmas -/

lemma splitDots_ne_nil (s : List Char) : splitDots s ≠ [] := by
  induction s with
  | nil => simp [splitDots]
  | cons c rest ih =>
    by_cases hc : c = '.'
    · simp [splitDots, if_pos hc]
    · simp only [splitDots, if_neg hc]
      cases hsp : splitDots rest with
      | nil => exact absurd hsp ih
      | cons t ts => simp [consHead]

lemma splitDots_no_dot (s : List Char) (h : ∀ c ∈ s, ¬ c = '.') :
    splitDots s = [s] := by
  induction s with
  | nil => rfl
  | cons c rest ih =>
    have hc : ¬ c = '.' := h c (List.mem_cons_self c rest)
    have iht := ih (fun x hx => h x (List.mem_cons_of_mem c hx))
    simp only [splitDots, if_neg hc, iht, consHead]

lemma splitDots_append_dot (ds rest : List Char) (h : ∀ c ∈ ds, ¬ c = '.') :
    splitDots (ds ++ '.' :: rest) = ds :: splitDots rest := by
  induction ds with
  | nil => simp [splitDots]
  | cons c t ih =>
    have hc : ¬ c = '.' := h c (List.mem_cons_self c t)
    have iht := ih (fun x hx => h x (List.mem_cons_of_mem c hx))
    simp only [List.cons_append, splitDots, if_neg hc, List.append_eq]
    rw [iht]
    rfl

lemma joinDots_splitDots (s : List Char) : joinDots (splitDots s) = s := by
  induction s with
  | nil => rfl
  | cons c rest ih =>
    by_cases hc : c = '.'
    · subst hc
      simp only [splitDots, if_pos rfl]
      rcases hsp : splitDots rest with _ | ⟨t, ts⟩
      · exact absurd hsp (splitDots_ne_nil rest)
      · rw [hsp] at ih
        simp only [joinDots]
        rw [ih]
        rfl
    · simp only [splitDots, if_neg hc]
      rcases hsp : splitDots rest with _ | ⟨t, ts⟩
      · exact absurd hsp (splitDots_ne_nil rest)
      · rw [hsp] at ih
        cases ts with
        | nil =>
          simp only [consHead, joinDots] at ih ⊢
          rw [ih]
        | cons t2 ts2 =>
          simp only [consHead, joinDots] at ih ⊢
          rw [List.cons_append, ih]

lemma allDigits_no_dot (s : List Char) (h : s.all Char.isDigit = true) :
    ∀ c ∈ s, ¬ c = '.' := by
  intro c hc
  exact digit_ne_dot c (List.all_eq_true.mp h c hc)

/-! ### parseBirthday characterization -/

lemma parseBirthday_error_msg (s : List Char) (e : String)
    (h : parseBirthday s = .error e) : e = "Invalid date format. Use DD.MM.YYYY" := by
  unfold parseBirthday at h
  rcases hsp : splitDots s with _ | ⟨a, _ | ⟨b, _ | ⟨c, _ | ⟨d, l⟩⟩⟩⟩ <;>
      rw [hsp] at h <;> dsimp only at h
  · cases h; rfl
  · cases h; rfl
  · cases h; rfl
  · split_ifs at h <;> cases h <;> rfl
  · cases h; rfl

lemma lenient_of_parseBirthday_ok (s : List Char) (b : Date)
    (h : parseBirthday s = .ok b) : lenientFormat s := by
  unfold parseBirthday at h
  rcases hsp : splitDots s with _ | ⟨ds, _ | ⟨ms, _ | ⟨ys, _ | ⟨d4, l⟩⟩⟩⟩ <;>
      rw [hsp] at h <;> dsimp only at h
  · cases h
  · cases h
  · cases h
  · split_ifs at h with hf hv
    obtain ⟨hf12, hf3⟩ := Bool.and_eq_true_iff.mp hf
    obtain ⟨hf1, hf2⟩ := Bool.and_eq_true_iff.mp hf12
    have hs := joinDots_splitDots s
    rw [hsp] at hs
    simp only [joinDots] at hs
    exact ⟨ds, ms, ys, hs.symm, hf1, hf2, hf3, hv⟩
  · cases h

lemma dayFieldOk_no_dot (ds : List Char) (h : dayFieldOk ds = true) :
    ∀ c ∈ ds, ¬ c = '.' := by
  intro c hc
  rcases ds with _ | ⟨c1, _ | ⟨c2, _ | ⟨c3, t⟩⟩⟩
  · simp at hc
  · unfold dayFieldOk at h
    simp only [List.mem_cons, List.not_mem_nil, or_false] at hc
    subst hc
    exact inRange_ne_dot 49 57 c h (by omega)
  · unfold dayFieldOk at h
    simp only [Bool.or_eq_true, Bool.and_eq_true, beq_iff_eq, or_assoc] at h
    simp only [List.mem_cons, List.not_mem_nil, or_false] at hc
    rcases hc with rfl | rfl
    · rcases h with ⟨rfl, _⟩ | ⟨hd | hd, _⟩ | ⟨rfl, _⟩ | ⟨rfl, _⟩
      · decide
      · subst hd; decide
      · subst hd; decide
      · decide
      · decide
    · rcases h with ⟨_, rfl | rfl⟩ | ⟨_, hd⟩ | ⟨_, hd⟩ | ⟨_, hd⟩
      · decide
      · decide
      · exact isDecDigit_ne_dot c hd
      · exact inRange_ne_dot 49 57 c hd (by omega)
      · exact inRange_ne_dot 49 57 c hd (by omega)
  · exact absurd h (by simp [dayFieldOk])

lemma monthFieldOk_no_dot (ms : List Char) (h : monthFieldOk ms = true) :
    ∀ c ∈ ms, ¬ c = '.' := by
  intro c hc
  rcases ms with _ | ⟨c1, _ | ⟨c2, _ | ⟨c3, t⟩⟩⟩
  · simp at hc
  · unfold monthFieldOk at h
    simp only [List.mem_cons, List.not_mem_nil, or_false] at hc
    subst hc
    exact inRange_ne_dot 49 57 c h (by omega)
  · unfold monthFieldOk at h
    simp only [Bool.or_eq_true, Bool.and_eq_true, beq_iff_eq, or_assoc] at h
    simp only [List.mem_cons, List.not_mem_nil, or_false] at hc
    rcases hc with rfl | rfl
    · rcases h with ⟨rfl, _⟩ | ⟨rfl, _⟩
      · decide
      · decide
    · rcases h with ⟨_, hd⟩ | ⟨_, hd⟩
      · exact inRange_ne_dot 48 50 c hd (by omega)
      · exact inRange_ne_dot 49 57 c hd (by omega)
  · exact absurd h (by simp [monthFieldOk])

lemma yearFieldOk_decDigits (ys : List Char) (h : yearFieldOk ys = true) :
    ys.all isDecDigit = true := by
  unfold yearFieldOk at h
  exact (Bool.and_eq_true_iff.mp h).2

lemma yearFieldOk_no_dot (ys : List Char) (h : yearFieldOk ys = true) :
    ∀ c ∈ ys, ¬ c = '.' := by
  intro c hc
  exact isDecDigit_ne_dot c (List.all_eq_true.mp (yearFieldOk_decDigits ys h) c hc)

lemma dayFieldOk_of_ascii (c1 c2 : Char) (h1 : c1.isDigit = true)
    (h2 : c2.isDigit = true) (hlo : 1 ≤ 10 * charVal c1 + charVal c2)
    (hhi : 10 * charVal c1 + charVal c2 ≤ 31) :
    dayFieldOk [c1, c2] = true := by
  obtain ⟨ha1, ha2⟩ := isDigit_toNat c1 h1
  obtain ⟨hb1, hb2⟩ := isDigit_toNat c2 h2
  unfold charVal at hlo hhi
  unfold dayFieldOk
  simp only [Bool.or_eq_true, Bool.and_eq_true, beq_iff_eq, or_assoc]
  by_cases h48 : c1.toNat = 48
  · refine Or.inr (Or.inr (Or.inl ⟨char_toNat_eq_char c1 '0' (by rw [h48]; rfl), ?_⟩))
    simp only [inRange, decide_eq_true_eq]
    omega
  · by_cases h49 : c1.toNat = 49
    · exact Or.inr (Or.inl ⟨Or.inl (char_toNat_eq_char c1 '1' (by rw [h49]; rfl)),
        isDecDigit_of_ascii c2 h2⟩)
    · by_cases h50 : c1.toNat = 50
      · exact Or.inr (Or.inl ⟨Or.inr (char_toNat_eq_char c1 '2' (by rw [h50]; rfl)),
          isDecDigit_of_ascii c2 h2⟩)
      · have h51 : c1.toNat = 51 := by omega
        refine Or.inl ⟨char_toNat_eq_char c1 '3' (by rw [h51]; rfl), ?_⟩
        have hb : c2.toNat = 48 ∨ c2.toNat = 49 := by omega
        rcases hb with hb | hb
        · exact Or.inl (char_toNat_eq_char c2 '0' (by rw [hb]; rfl))
        · exact Or.inr (char_toNat_eq_char c2 '1' (by rw [hb]; rfl))

lemma monthFieldOk_of_ascii (c1 c2 : Char) (h1 : c1.isDigit = true)
    (h2 : c2.isDigit = true) (hlo : 1 ≤ 10 * charVal c1 + charVal c2)
    (hhi : 10 * charVal c1 + charVal c2 ≤ 12) :
    monthFieldOk [c1, c2] = true := by
  obtain ⟨ha1, ha2⟩ := isDigit_toNat c1 h1
  obtain ⟨hb1, hb2⟩ := isDigit_toNat c2 h2
  unfold charVal at hlo hhi
  unfold monthFieldOk
  simp only [Bool.or_eq_true, Bool.and_eq_true, beq_iff_eq]
  by_cases h48 : c1.toNat = 48
  · refine Or.inr ⟨char_toNat_eq_char c1 '0' (by rw [h48]; rfl), ?_⟩
    simp only [inRange, decide_eq_true_eq]
    omega
  · have h49 : c1.toNat = 49 := by omega
    refine Or.inl ⟨char_toNat_eq_char c1 '1' (by rw [h49]; rfl), ?_⟩
    simp only [inRange, decide_eq_true_eq]
    omega

lemma yearFieldOk_of_ascii (c1 c2 c3 c4 : Char) (h1 : c1.isDigit = true)
    (h2 : c2.isDigit = true) (h3 : c3.isDigit = true) (h4 : c4.isDigit = true) :
    yearFieldOk [c1, c2, c3, c4] = true := by
  unfold yearFieldOk
  simp [isDecDigit_of_ascii c1 h1, isDecDigit_of_ascii c2 h2,
    isDecDigit_of_ascii c3 h3, isDecDigit_of_ascii c4 h4]

lemma parseBirthday_ok_of_lenient (s : List Char) (h : lenientFormat s) :
    ∃ b, parseBirthday s = .ok b := by
  obtain ⟨ds, ms, ys, heq, hd, hm, hy, hv⟩ := h
  subst heq
  have hdd := dayFieldOk_no_dot ds hd
  have hmd := monthFieldOk_no_dot ms hm
  have hyd := yearFieldOk_no_dot ys hy
  have hsplit : splitDots (ds ++ '.' :: (ms ++ '.' :: ys)) = [ds, ms, ys] := by
    rw [splitDots_append_dot _ _ hdd, splitDots_append_dot _ _ hmd,
      splitDots_no_dot _ hyd]
  unfold parseBirthday
  rw [hsplit]
  dsimp only
  rw [if_pos (by simp [hd, hm, hy]), if_pos hv]
  exact ⟨_, rfl⟩

/-! ### Claim theorems -/

/-- C1: for every directory (whose records carry the distinct names a
Python dict guarantees) and every record in it, when
`get_upcoming_birthdays` returns normally its output contains an entry
for the record exactly when the record has a birthday whose re-based
date (advanced to next year when strictly before today) lies 0 to 7
days from today inclusive; in particular `days_until = 0` is included
and a record with no birthday never is. -/
theorem upcoming_birthdays_window_iff (book : AddressBook) (today : Date)
    (out : List Entry) (hnd : (book.values.map Record.name).Nodup)
    (h : book.get_upcoming_birthdays today = .ok out) :
    ∀ r ∈ book.values,
      ((∃ e ∈ out, e.name = r.name) ↔
        ∃ bd ty, r.birthday = some bd ∧ rebasedBirthday bd today = .ok ty ∧
          0 ≤ daysUntil ty today ∧ daysUntil ty today ≤ 7) := by
  intro r hr
  rw [collectUpcoming_mem_iff today book.values out h hnd r hr]
  exact shouldInclude_iff today r

/-- Witness for C1: the two-record directory `book1` (Alice with birthday
12.06.2024, Bob without one) on today = 10.06.2024. -/
theorem upcoming_birthdays_window_iff_witness :
    (∃ e ∈ [Entry.mk ("Alice".toList) ("12.06.2024".toList)], e.name = aliceRec.name) ↔
      ∃ bd ty, aliceRec.birthday = some bd ∧
        rebasedBirthday bd ⟨2024, 6, 10⟩ = .ok ty ∧
        0 ≤ daysUntil ty ⟨2024, 6, 10⟩ ∧ daysUntil ty ⟨2024, 6, 10⟩ ≤ 7 :=
  upcoming_birthdays_window_iff book1 ⟨2024, 6, 10⟩
    [Entry.mk ("Alice".toList) ("12.06.2024".toList)] (by decide) (by decide)
    aliceRec (by decide)

/-- C2: every emitted entry's congratulation date is the re-based
birthday date moved to `this_year_date + (7 - weekday)` days exactly
when its weekday is Saturday (5) or Sunday (6), else the date
unchanged, rendered as DD.MM.YYYY. -/
theorem congradulation_weekend_rollover (book : AddressBook) (today : Date)
    (out : List Entry) (h : book.get_upcoming_birthdays today = .ok out) :
    ∀ e ∈ out, ∃ r bd ty, r ∈ book.values ∧ r.birthday = some bd ∧
      rebasedBirthday bd today = .ok ty ∧ e.name = r.name ∧
      e.congradulation_date = formatDate
        (if weekday ty = 5 ∨ weekday ty = 6 then addDays ty (7 - weekday ty) else ty) := by
  intro e he
  obtain ⟨r, hr, bd, ty, h1, h2, h3, h4, h5⟩ :=
    collectUpcoming_shape today book.values out h e he
  subst h5
  exact ⟨r, bd, ty, hr, h1, h2, rfl, rfl⟩

/-- Witness for C2: Carol's birthday 15.06.2024 is a Saturday, and the
emitted congratulation date is Monday 17.06.2024 (spec's own example). -/
theorem congradulation_weekend_rollover_witness :
    ∃ r bd ty, r ∈ book2.values ∧ r.birthday = some bd ∧
      rebasedBirthday bd ⟨2024, 6, 10⟩ = .ok ty ∧
      (Entry.mk ("Carol".toList) ("17.06.2024".toList)).name = r.name ∧
      (Entry.mk ("Carol".toList) ("17.06.2024".toList)).congradulation_date =
        formatDate (if weekday ty = 5 ∨ weekday ty = 6
          then addDays ty (7 - weekday ty) else ty) :=
  congradulation_weekend_rollover book2 ⟨2024, 6, 10⟩
    [Entry.mk ("Carol".toList) ("17.06.2024".toList)] (by decide)
    (Entry.mk ("Carol".toList) ("17.06.2024".toList)) (by decide)

/-- C10: every congratulation date emitted by `get_upcoming_birthdays`
renders a date whose weekday is Monday through Friday (index at most 4),
never Saturday or Sunday. -/
theorem congradulation_date_weekday (book : AddressBook) (today : Date)
    (out : List Entry) (h : book.get_upcoming_birthdays today = .ok out) :
    ∀ e ∈ out, ∃ d, e.congradulation_date = formatDate d ∧ weekday d ≤ 4 := by
  intro e he
  obtain ⟨r, hr, bd, ty, h1, h2, h3, h4, h5⟩ :=
    collectUpcoming_shape today book.values out h e he
  subst h5
  exact ⟨congradulationDate ty, rfl, weekday_congradulationDate ty
    (validYMD_of_validDate ty (rebasedBirthday_valid bd today ty h2))⟩

/-- Witness for C10 at the weekend-rollover sample. -/
theorem congradulation_date_weekday_witness :
    ∃ d, (Entry.mk ("Carol".toList) ("17.06.2024".toList)).congradulation_date =
      formatDate d ∧ weekday d ≤ 4 :=
  congradulation_date_weekday book2 ⟨2024, 6, 10⟩
    [Entry.mk ("Carol".toList) ("17.06.2024".toList)] (by decide)
    (Entry.mk ("Carol".toList) ("17.06.2024".toList)) (by decide)

/-- C5: evaluating the code at the failing input: a record with birthday
Feb 29 2024 and today = 01.03.2025 (2025 is not a leap year) makes
`get_upcoming_birthdays` raise (the `date.replace(year=2025)` call is
invalid), contradicting the claim that re-basing is total. -/
theorem leap_day_rebasing_raises :
    book3.get_upcoming_birthdays ⟨2025, 3, 1⟩ = .error () := by decide

/-- C6: `edit_phone old new` leaves the phone sequence equal to the
original with every phone whose string equals `old` removed and `new`
appended; when nothing matched, the net effect is exactly appending
`new`, with no error. -/
theorem edit_phone_filter_append (r : Record) (old : List Char) (p : Phone) :
    (r.edit_phone old p).phones =
      r.phones.filter (fun q => q.value != old) ++ [p] ∧
    ((∀ q ∈ r.phones, q.value ≠ old) →
      (r.edit_phone old p).phones = r.phones ++ [p]) := by
  constructor
  · rfl
  · intro hno
    have hfix : r.phones.filter (fun q => q.value != old) = r.phones :=
      List.filter_eq_self.mpr (fun q hq => by simpa using hno q hq)
    show r.phones.filter (fun q => q.value != old) ++ [p] = r.phones ++ [p]
    rw [hfix]

/-- Witness for C6: editing a phone that is not present appends. -/
theorem edit_phone_filter_append_witness :
    ((Record.mk ("Eve".toList) [⟨"1112223334".toList⟩] none).edit_phone
        ("9998887776".toList) ⟨"5556667778".toList⟩).phones =
      [Phone.mk ("1112223334".toList)] ++ [Phone.mk ("5556667778".toList)] :=
  (edit_phone_filter_append (Record.mk ("Eve".toList) [⟨"1112223334".toList⟩] none)
    ("9998887776".toList) ⟨"5556667778".toList⟩).2 (by decide)

/-- C7 counterexample: a record that contains `old`, edited with a new
phone whose string equals `old`: afterwards `find_phone old` is not
absent, refuting the claim as stated. -/
theorem edit_phone_same_value_cex :
    (∃ q ∈ (Record.mk ("Mallory".toList) [⟨"0123456789".toList⟩] none).phones,
        q.value = "0123456789".toList) ∧
    ((Record.mk ("Mallory".toList) [⟨"0123456789".toList⟩] none).edit_phone
        ("0123456789".toList) ⟨"0123456789".toList⟩).find_phone
        ("0123456789".toList) ≠ none := by decide

lemma phone_eq_of_value_eq (a b : Phone) (h : a.value = b.value) : a = b := by
  cases a
  cases b
  simpa using h

/-- C7 amended: for a record containing a phone equal to `old` and a new
phone whose string differs from `old`, after `edit_phone old new` the
call `find_phone new` returns the new phone and `find_phone old`
returns absent. -/
theorem edit_phone_find_phone (r : Record) (old : List Char) (p : Phone)
    (hold : ∃ q ∈ r.phones, q.value = old) (hne : p.value ≠ old) :
    (r.edit_phone old p).find_phone p.value = some p ∧
    (r.edit_phone old p).find_phone old = none := by
  constructor
  · show ((r.phones.filter fun q => q.value != old) ++ [p]).find?
        (fun q => q.value == p.value) = some p
    rw [List.find?_append]
    cases hf : (r.phones.filter fun q => q.value != old).find?
        (fun q => q.value == p.value) with
    | none => simp
    | some q =>
      have hpq : q.value = p.value := by simpa using List.find?_some hf
      rw [phone_eq_of_value_eq q p hpq]
      rfl
  · show ((r.phones.filter fun q => q.value != old) ++ [p]).find?
        (fun q => q.value == old) = none
    rw [List.find?_eq_none]
    intro x hx
    rcases List.mem_append.mp hx with hx | hx
    · have hxn := (List.mem_filter.mp hx).2
      simpa using hxn
    · have hxp : x = p := by simpa using hx
      subst hxp
      simpa using hne

/-- Witness for C7 amended at a concrete record. -/
theorem edit_phone_find_phone_witness :
    ((Record.mk ("Judy".toList) [⟨"0123456789".toList⟩] none).edit_phone
        ("0123456789".toList) ⟨"1234567890".toList⟩).find_phone
        ("1234567890".toList) = some ⟨"1234567890".toList⟩ ∧
    ((Record.mk ("Judy".toList) [⟨"0123456789".toList⟩] none).edit_phone
        ("0123456789".toList) ⟨"1234567890".toList⟩).find_phone
        ("0123456789".toList) = none :=
  edit_phone_find_phone (Record.mk ("Judy".toList) [⟨"0123456789".toList⟩] none)
    ("0123456789".toList) ⟨"1234567890".toList⟩ (by decide) (by decide)

lemma phone_cond_iff (s : List Char) :
    ((!(str_isdigit s) || s.length != 10) = false) ↔
      (s.length = 10 ∧ s.all py_isdigit = true) := by
  unfold str_isdigit
  simp only [Bool.or_eq_false_iff, Bool.not_eq_false', Bool.and_eq_true,
    bne_eq_false_iff_eq]
  constructor
  · rintro ⟨⟨_, ha⟩, hl⟩
    exact ⟨hl, ha⟩
  · rintro ⟨hl, ha⟩
    refine ⟨⟨?_, ha⟩, hl⟩
    cases s with
    | nil => simp at hl
    | cons a t => rfl

/-- C3 counterexample: a ten-character string of Arabic-Indic digits is
accepted by Phone construction (`str.isdigit` accepts Unicode digits)
although none of its characters is an ASCII decimal digit 0-9; and the
message the code raises carries a trailing period, so it is not the
message the claim states. -/
theorem phone_message_cex :
    Phone.mk? ("٠١٢٣٤٥٦٧٨٩".toList) = .ok ⟨"٠١٢٣٤٥٦٧٨٩".toList⟩ ∧
    ("٠١٢٣٤٥٦٧٨٩".toList).all Char.isDigit = false ∧
    Phone.mk? ("123".toList) = .error "Phone number must contain 10 digits." ∧
      "Phone number must contain 10 digits." ≠ "Phone number must contain 10 digits" := by
  refine ⟨by decide, by decide, rfl, by decide⟩

/-- C3 amended: Phone construction succeeds exactly on strings of ten
characters that `str.isdigit` accepts (any Unicode digit character, the
ASCII decimal digits 0-9 among them); every other string fails with the
`ValueError` message "Phone number must contain 10 digits." (with
trailing period, as the code spells it); an accepted phone stores the
validated string verbatim, so an invalid phone value is never produced
or stored. -/
theorem phone_validation (s : List Char) :
    ((∃ p, Phone.mk? s = .ok p) ↔ s.length = 10 ∧ s.all py_isdigit = true) ∧
    (¬(s.length = 10 ∧ s.all py_isdigit = true) →
      Phone.mk? s = .error "Phone number must contain 10 digits.") ∧
    (∀ p, Phone.mk? s = .ok p → p.value = s) := by
  by_cases hc : (!(str_isdigit s) || s.length != 10) = true
  · have hnc : ¬(s.length = 10 ∧ s.all py_isdigit = true) := by
      intro hcond
      have hfalse := (phone_cond_iff s).mpr hcond
      rw [hc] at hfalse
      cases hfalse
    have hval : Phone.mk? s = .error "Phone number must contain 10 digits." := by
      unfold Phone.mk?
      rw [if_pos hc]
    refine ⟨⟨?_, fun hcond => absurd hcond hnc⟩, fun _ => hval, ?_⟩
    · rintro ⟨p, hp⟩
      rw [hval] at hp
      cases hp
    · intro p hp
      rw [hval] at hp
      cases hp
  · have hcond := (phone_cond_iff s).mp (Bool.eq_false_iff.mpr hc)
    have hval : Phone.mk? s = .ok ⟨s⟩ := by
      unfold Phone.mk?
      rw [if_neg hc]
    refine ⟨⟨fun _ => hcond, fun _ => ⟨⟨s⟩, hval⟩⟩, fun hn => absurd hcond hn, ?_⟩
    intro p hp
    rw [hval] at hp
    cases hp
    rfl

/-- Witness for C3 amended at a non-digit string. -/
theorem phone_validation_witness :
    Phone.mk? ("abc".toList) = .error "Phone number must contain 10 digits." :=
  (phone_validation ("abc".toList)).2.1 (by decide)

lemma find_assocSet (l : List (List Char × Record)) (k : List Char) (v : Record) :
    (List.find? (fun kv => kv.1 == k) (assocSet l k v)).map Prod.snd = some v := by
  induction l with
  | nil => simp [assocSet]
  | cons kv0 rest ih =>
    obtain ⟨k0, v0⟩ := kv0
    by_cases hk : (k0 == k) = true
    · simp [assocSet, hk]
    · simp [assocSet, hk, ih]

/-- C9: `add_record` then `find` on the record's name returns a record
with that name; `delete` then `find` on the deleted name returns absent;
and `find` is total, returning `none` exactly when the name keys no
entry. -/
theorem directory_add_find_delete (book : AddressBook) (r : Record) (n : List Char) :
    (∃ rec, (book.add_record r).find r.name = some rec ∧ rec.name = r.name) ∧
    (book.delete n).find n = none ∧
    ((book.find n = none) ↔ ∀ kv ∈ book.data, ¬ kv.1 = n) := by
  refine ⟨⟨r, ?_, rfl⟩, ?_, ?_⟩
  · exact find_assocSet book.data r.name r
  · show (List.find? (fun kv => kv.1 == n)
        (book.data.filter fun kv => kv.1 != n)).map Prod.snd = none
    rw [Option.map_eq_none', List.find?_eq_none]
    intro kv hkv
    have hne := (List.mem_filter.mp hkv).2
    simpa using hne
  · unfold AddressBook.find
    rw [Option.map_eq_none', List.find?_eq_none]
    constructor
    · intro h kv hkv
      have hb := h kv hkv
      simpa using hb
    · intro h kv hkv
      have hb := h kv hkv
      simpa using hb

/-- Witness for C9 at a concrete directory. -/
theorem directory_add_find_delete_witness :
    (∃ rec, ((AddressBook.mk [("Bob".toList, bobRec)]).add_record aliceRec).find
        aliceRec.name = some rec ∧ rec.name = aliceRec.name) ∧
    ((AddressBook.mk [("Bob".toList, bobRec)]).delete ("Zoe".toList)).find
        ("Zoe".toList) = none ∧
    (((AddressBook.mk [("Bob".toList, bobRec)]).find ("Zoe".toList) = none) ↔
      ∀ kv ∈ (AddressBook.mk [("Bob".toList, bobRec)]).data, ¬ kv.1 = "Zoe".toList) :=
  directory_add_find_delete (AddressBook.mk [("Bob".toList, bobRec)]) aliceRec
    ("Zoe".toList)

/-- C4 counterexample: `"1.01.2024"` (one-digit day) and `"1٥.01.2024"`
(day "1" + Arabic-Indic five, parsed as day 15) are accepted by
Birthday construction although neither is in the claim's two-digit
ASCII `DD.MM.YYYY` language — `strptime`'s `%d` accepts one digit, and
its `\d` accepts any Unicode decimal digit. -/
theorem birthday_single_digit_cex :
    (parseBirthday ("1.01.2024".toList) = .ok ⟨2024, 1, 1⟩ ∧
      specDDMMYYYY ("1.01.2024".toList) = false) ∧
    (parseBirthday ("1٥.01.2024".toList) = .ok ⟨2024, 1, 15⟩ ∧
      specDDMMYYYY ("1٥.01.2024".toList) = false) := by decide

/-- C4 amended: Birthday construction succeeds iff the value is
day.month.year where the day matches `strptime`'s `%d` language (an
ASCII digit 1-9; ASCII 30, 31 or 0x with x an ASCII digit 1-9; an ASCII
1 or 2 followed by any Unicode decimal digit; or a space followed by an
ASCII digit 1-9), the month matches `%m` (an ASCII digit 1-9, or ASCII
10-12 or 01-09), the year is exactly four Unicode decimal digits, and
the triple denoted by the digits' decimal values is a real calendar
date; every failing string fails with the ValidationError message
"Invalid date format. Use DD.MM.YYYY". -/
theorem birthday_validation (s : List Char) :
    ((∃ b, parseBirthday s = .ok b) ↔ lenientFormat s) ∧
    ((∀ b, parseBirthday s ≠ .ok b) →
      parseBirthday s = .error "Invalid date format. Use DD.MM.YYYY") := by
  constructor
  · constructor
    · rintro ⟨b, hb⟩
      exact lenient_of_parseBirthday_ok s b hb
    · intro h
      exact parseBirthday_ok_of_lenient s h
  · intro hno
    cases hp : parseBirthday s with
    | ok b => exact absurd hp (hno b)
    | error e => exact congrArg Except.error (parseBirthday_error_msg s e hp)

/-- Witness for C4 amended: a well-shaped string naming no real date
(April 31) fails with the code's message. -/
theorem birthday_validation_witness :
    parseBirthday ("31.04.2024".toList) =
      .error "Invalid date format. Use DD.MM.YYYY" :=
  (birthday_validation ("31.04.2024".toList)).2 (fun b hb => Except.noConfusion hb)

/-- C8 counterexample: `"01.01.0500"` is a real `DD.MM.YYYY` date
string that parses to year 500, but glibc `strftime` prints the year
unpadded, so formatting returns `"01.01.500"`, not the input. -/
theorem birthday_roundtrip_cex :
    specDDMMYYYY ("01.01.0500".toList) = true ∧
    parseBirthday ("01.01.0500".toList) = .ok ⟨500, 1, 1⟩ ∧
    formatDate ⟨500, 1, 1⟩ ≠ "01.01.0500".toList := by decide

/-- C8 amended: every string in the two-digit `DD.MM.YYYY` language
denoting a real calendar date with year at least 1000 parses
successfully, and formatting the parsed date back as `DD.MM.YYYY`
reproduces the input exactly (below year 1000 `strftime` emits the year
unpadded and the round trip fails). -/
theorem birthday_roundtrip (s : List Char) (h : specDDMMYYYY s = true)
    (hy : 1000 ≤ digitsVal (s.drop 6)) :
    ∃ b, parseBirthday s = .ok b ∧ formatDate b = s := by
  rcases s with _ | ⟨d1, _ | ⟨d2, _ | ⟨c1, _ | ⟨m1, _ | ⟨m2, _ | ⟨c2, _ |
    ⟨y1, _ | ⟨y2, _ | ⟨y3, _ | ⟨y4, _ | ⟨x, t⟩⟩⟩⟩⟩⟩⟩⟩⟩⟩⟩
  all_goals try exact Bool.noConfusion h
  unfold specDDMMYYYY at h
  simp only [Bool.and_eq_true, beq_iff_eq, List.all_cons, List.all_nil,
    Bool.and_true] at h
  obtain ⟨⟨⟨hc1, hc2⟩, h1, h2, h3, h4, h5, h6, h7, h8⟩, hv⟩ := h
  subst hc1
  subst hc2
  have hv' := hv
  simp only [validDate, decide_eq_true_eq] at hv'
  obtain ⟨hY1, hY2, hM1, hM2, hD1, hD2⟩ := hv'
  have hdd : ∀ c ∈ [d1, d2], ¬ c = '.' := by
    intro c hcm
    simp only [List.mem_cons, List.not_mem_nil, or_false] at hcm
    rcases hcm with rfl | rfl
    · exact digit_ne_dot _ h1
    · exact digit_ne_dot _ h2
  have hmd : ∀ c ∈ [m1, m2], ¬ c = '.' := by
    intro c hcm
    simp only [List.mem_cons, List.not_mem_nil, or_false] at hcm
    rcases hcm with rfl | rfl
    · exact digit_ne_dot _ h3
    · exact digit_ne_dot _ h4
  have hyd : ∀ c ∈ [y1, y2, y3, y4], ¬ c = '.' := by
    intro c hcm
    simp only [List.mem_cons, List.not_mem_nil, or_false] at hcm
    rcases hcm with rfl | rfl | rfl | rfl
    · exact digit_ne_dot _ h5
    · exact digit_ne_dot _ h6
    · exact digit_ne_dot _ h7
    · exact digit_ne_dot _ h8
  have hsplit : splitDots [d1, d2, '.', m1, m2, '.', y1, y2, y3, y4] =
      [[d1, d2], [m1, m2], [y1, y2, y3, y4]] := by
    have e : [d1, d2, '.', m1, m2, '.', y1, y2, y3, y4] =
        [d1, d2] ++ '.' :: ([m1, m2] ++ '.' :: [y1, y2, y3, y4]) := rfl
    rw [e, splitDots_append_dot _ _ hdd, splitDots_append_dot _ _ hmd,
      splitDots_no_dot _ hyd]
  have hDval : digitsVal [d1, d2] = 10 * charVal d1 + charVal d2 := by
    rw [digitsVal_two, decValue_ascii d1 h1, decValue_ascii d2 h2]
  have hMval : digitsVal [m1, m2] = 10 * charVal m1 + charVal m2 := by
    rw [digitsVal_two, decValue_ascii m1 h3, decValue_ascii m2 h4]
  have h31 : digitsVal [d1, d2] ≤ 31 := le_trans hD2 (daysInMonth_le_31 _ _)
  have hdok : dayFieldOk [d1, d2] = true :=
    dayFieldOk_of_ascii d1 d2 h1 h2 (by omega) (by omega)
  have hmok : monthFieldOk [m1, m2] = true :=
    monthFieldOk_of_ascii m1 m2 h3 h4 (by omega) (by omega)
  have hyok : yearFieldOk [y1, y2, y3, y4] = true :=
    yearFieldOk_of_ascii y1 y2 y3 y4 h5 h6 h7 h8
  have hy' : 1000 ≤ digitsVal [y1, y2, y3, y4] := hy
  refine ⟨⟨digitsVal [y1, y2, y3, y4], digitsVal [m1, m2], digitsVal [d1, d2]⟩, ?_, ?_⟩
  · unfold parseBirthday
    rw [hsplit]
    dsimp only
    rw [if_pos (by simp [hdok, hmok, hyok]), if_pos hv]
  · unfold formatDate
    dsimp only
    rw [pad2_digitsVal d1 d2 h1 h2, pad2_digitsVal m1 m2 h3 h4,
      natChars_digitsVal_four y1 y2 y3 y4 h5 h6 h7 h8 hy']
    rfl

/-- Witness for C8 amended at the spec's own example date string. -/
theorem birthday_roundtrip_witness :
    ∃ b, parseBirthday ("12.06.2024".toList) = .ok b ∧
      formatDate b = "12.06.2024".toList :=
  birthday_roundtrip ("12.06.2024".toList) (by decide) (by decide)

end HW7
